import Mathlib

/-!
Verification of the NBA player-comparison tool (`streamlit_app.py`).

The development embeds the two pieces of core logic of the program:

* `load_and_process_data` — the load/normalization pipeline: mean imputation
  of missing numeric values (`stats.fillna(stats.mean())`), z-score
  standardization per column (`StandardScaler.fit_transform`, population
  statistics, zero standard deviation mapped to a unit scale), and the
  appended row-wise sum column `Career Score`.  Numeric cells are modelled
  as `Option ℝ`, with `none` playing the role of a missing value (`NaN`);
  the pandas row sum skips missing values, which the model renders with
  `Option.getD _ 0`.

* `find_similar_players` — the similarity query: select the rows whose
  `player` equals the target (first match supplies the target position and
  score), drop every row whose `player` equals the target, optionally keep
  only rows with the target's position, attach the absolute score
  difference, and return the `k` rows with the smallest difference
  (`DataFrame.nsmallest`, i.e. a stable ascending sort followed by `take`).
  The engine is generic over a `LinearOrderedField` of scores.
-/

namespace NBA

/-- One row of the normalized table as seen by the similarity engine:
identifying fields plus the scalar career score. -/
structure NRow (α : Type) where
  player : String
  pos : String
  careerScore : α
deriving DecidableEq, Repr

variable {α : Type} [LinearOrderedField α]

/-- The rows of `final_df` whose `player` column equals the target
(`final_df[final_df['player'] == target_player]`). -/
def target_rows (final_df : List (NRow α)) (target_player : String) : List (NRow α) :=
  final_df.filter (fun r => r.player == target_player)

/-- The candidate rows: every row whose `player` differs from the target
(`final_df[final_df['player'] != target_player]`), further restricted to the
position of `t0` — the first matching target row — when `same_position_only`
is set. -/
def filtered_others (final_df : List (NRow α)) (target_player : String)
    (same_position_only : Bool) (t0 : NRow α) : List (NRow α) :=
  let other_players := final_df.filter (fun r => r.player != target_player)
  if same_position_only then
    other_players.filter (fun r => r.pos == t0.pos)
  else
    other_players

/-- Comparison on the `score_difference` column, the sort key of
`nsmallest`. -/
def diffLE (a b : NRow α × α) : Prop := a.2 ≤ b.2

instance : DecidableRel (diffLE (α := α)) := fun a b => inferInstanceAs (Decidable (a.2 ≤ b.2))

/-- The model of `DataFrame.nsmallest(n, 'score_difference')` with the
default `keep='first'`: sort ascending by the key, stably (ties keep their
original relative order), and return the first `n` rows. -/
def nsmallest (n : Nat) (l : List (NRow α × α)) : List (NRow α × α) :=
  (l.insertionSort diffLE).take n

/-- The embedding of `find_similar_players`.  The result rows carry the
added `score_difference` column as the second component. -/
def find_similar_players (final_df : List (NRow α)) (target_player : String)
    (num_comparisons : Nat) (same_position_only : Bool) : List (NRow α × α) :=
  match target_rows final_df target_player with
  | [] => []
  | t0 :: _ =>
    let target_score := t0.careerScore
    let with_diff := (filtered_others final_df target_player same_position_only t0).map
      (fun r => (r, |r.careerScore - target_score|))
    nsmallest num_comparisons with_diff

/-- The candidate list together with its `score_difference` column, as built
by the body of `find_similar_players` once the target has been found. -/
def candidates_with_diff (final_df : List (NRow α)) (target_player : String)
    (same_position_only : Bool) (t0 : NRow α) : List (NRow α × α) :=
  (filtered_others final_df target_player same_position_only t0).map
    (fun r => (r, |r.careerScore - t0.careerScore|))

instance : IsTotal (NRow α × α) diffLE := ⟨fun a b => le_total a.2 b.2⟩

instance : IsTrans (NRow α × α) diffLE := ⟨fun _ _ _ hab hbc => le_trans hab hbc⟩

-- Concrete tables used to instantiate the theorems below.  `exampleDF` is
-- the worked example of the design notes: players A (score 10, G),
-- B (9, G), C (7, F), D (15, F).
def exampleDF : List (NRow ℚ) :=
  [⟨"A", "G", 10⟩, ⟨"B", "G", 9⟩, ⟨"C", "F", 7⟩, ⟨"D", "F", 15⟩]

/-- A two-row table: one target row and one candidate sharing its position. -/
def twoDF : List (NRow ℚ) :=
  [⟨"A", "G", 10⟩, ⟨"B", "G", 9⟩]

/-- A one-row table. -/
def oneDF : List (NRow ℚ) :=
  [⟨"A", "G", 10⟩]

/-- A table in which two distinct rows share the player name "A". -/
def dupDF : List (NRow ℚ) :=
  [⟨"A", "G", 10⟩, ⟨"B", "G", 9⟩, ⟨"A", "F", 7⟩]

/-!  The load/normalization pipeline (`load_and_process_data`), modelled after
the CSV has been read and the `player` column validated.  A raw table is the
`player` column, the optional `pos` column, and the numeric columns selected
by `select_dtypes` — each a named list with one `Option ℝ` cell per row,
`none` standing for a missing value (`NaN`). -/

structure RawTable where
  player : List String
  pos : Option (List String)
  stats : List (String × List (Option ℝ))

/-- Wellformedness of a raw table: each column has one cell per row. -/
def RawTable.WF (t : RawTable) : Prop :=
  (t.pos.getD (List.replicate t.player.length "Unknown")).length = t.player.length ∧
  ∀ c ∈ t.stats, c.2.length = t.player.length

/-- The arithmetic mean of the non-missing values of a column, the per-column
value of `stats.mean()` (pandas skips missing values). -/
noncomputable def colMean (c : List (Option ℝ)) : ℝ :=
  (c.filterMap id).sum / (c.filterMap id).length

/-- One column of `stats.fillna(stats.mean())`: every missing cell receives
the column mean.  When the column has no non-missing value its mean is
itself missing, and filling a missing cell with a missing value leaves it
missing, so the column is unchanged. -/
noncomputable def fillna (c : List (Option ℝ)) : List (Option ℝ) :=
  if (c.filterMap id).isEmpty then c
  else c.map (fun x => some (x.getD (colMean c)))

/-- The population variance of the non-missing values of a column, the
per-column `var_` of `StandardScaler.fit`. -/
noncomputable def colVar (c : List (Option ℝ)) : ℝ :=
  ((c.filterMap id).map (fun x => (x - colMean c) ^ 2)).sum / (c.filterMap id).length

/-- The per-column `scale_` of `StandardScaler`: the population standard
deviation, with an exact zero replaced by `1` (`_handle_zeros_in_scale`) so
that a constant column maps to `0` instead of dividing by zero. -/
noncomputable def colScale (c : List (Option ℝ)) : ℝ :=
  if Real.sqrt (colVar c) = 0 then 1 else Real.sqrt (colVar c)

/-- One column of `StandardScaler.fit_transform`: every cell is mapped to
`(x − mean)/scale`; missing cells are passed through unchanged. -/
noncomputable def scaleCol (c : List (Option ℝ)) : List (Option ℝ) :=
  c.map (Option.map (fun x => (x - colMean c) / colScale c))

/-- The whole per-column treatment of the load step: mean imputation followed
by z-score standardization. -/
noncomputable def normCol (c : List (Option ℝ)) : List (Option ℝ) :=
  scaleCol (fillna c)

/-- The normalized table returned by the load step: `player` and `pos`
(defaulted to "Unknown" when absent), the normalized numeric columns, and
the appended `Career Score` column. -/
structure FinalTable where
  player : List String
  pos : List String
  stats : List (String × List (Option ℝ))
  careerScore : List ℝ

/-- The `Career Score` of row `i`: the row-wise sum of the numeric columns,
`final_df[numerical_columns].sum(axis=1)`.  The pandas row sum skips missing
values, so a missing cell contributes `0`. -/
noncomputable def rowScore (cols : List (List (Option ℝ))) (i : Nat) : ℝ :=
  (cols.map (fun c => (c.getD i none).getD 0)).sum

/-- The embedding of `load_and_process_data` after the CSV read: default the
`pos` column, impute and standardize every numeric column, and append the
row-wise `Career Score` sum.  Row order and row count are those of the
input. -/
noncomputable def load_and_process_data (t : RawTable) : FinalTable :=
  let pos_df := t.pos.getD (List.replicate t.player.length "Unknown")
  let normalized := t.stats.map (fun nc => (nc.1, normCol nc.2))
  { player := t.player
    pos := pos_df
    stats := normalized
    careerScore := (List.range t.player.length).map (rowScore (normalized.map Prod.snd)) }

/-- Reindexing of a list by a list of row indices; with `idx` a permutation
of `range l.length` this permutes the rows of a column. -/
def permuteList (idx : List Nat) {β : Type} (l : List β) (d : β) : List β :=
  idx.map (fun i => l.getD i d)

/-- A raw table with its rows reordered by `idx`, column by column. -/
def permuteTable (idx : List Nat) (t : RawTable) : RawTable :=
  { player := permuteList idx t.player ""
    pos := t.pos.map (fun ps => permuteList idx ps "Unknown")
    stats := t.stats.map (fun nc => (nc.1, permuteList idx nc.2 none)) }

/-- A concrete wellformed raw table with `pos` present, used as witness
input. -/
def rawW : RawTable :=
  { player := ["A", "B"], pos := some ["G", "F"], stats := [("pts", [some 1, some 3])] }

/-- A concrete raw table with a constant numeric column, used as witness
input. -/
def constT : RawTable :=
  { player := ["A", "B"], pos := some ["G", "G"], stats := [("z", [some 5, some 5])] }

/-- A concrete raw table with an entirely missing numeric column. -/
def missT : RawTable :=
  { player := ["A"], pos := some ["G"], stats := [("x", [none])] }

/-- A concrete raw table together with a two-row swap, used to witness the
permutation invariance of `Career Score`. -/
def permT : RawTable :=
  { player := ["A", "B"], pos := some ["G", "F"], stats := [("p", [some 1, some 2])] }

theorem find_similar_eq_of_target (final_df : List (NRow α)) (target_player : String)
    (num_comparisons : Nat) (same_position_only : Bool) (t0 : NRow α) (rest : List (NRow α))
    (h : target_rows final_df target_player = t0 :: rest) :
    find_similar_players final_df target_player num_comparisons same_position_only =
      nsmallest num_comparisons
        (candidates_with_diff final_df target_player same_position_only t0) := by
  unfold find_similar_players
  rw [h]
  rfl

example : find_similar_players exampleDF "A" 2 false =
    [(⟨"B", "G", 9⟩, 1), (⟨"C", "F", 7⟩, 3)] := by
  norm_num [find_similar_players, target_rows, filtered_others, nsmallest,
    List.insertionSort, List.orderedInsert, diffLE, exampleDF]

example : find_similar_players exampleDF "A" 2 true = [(⟨"B", "G", 9⟩, 1)] := by
  norm_num [find_similar_players, target_rows, filtered_others, nsmallest,
    List.insertionSort, List.orderedInsert, diffLE, exampleDF]

example : find_similar_players exampleDF "Z" 3 false = [] := by decide

/-!  Helper lemmas about `nsmallest` and the candidate filters. -/

theorem take_pref (n : Nat) {β : Type} (l : List β) : l.take n <+: l :=
  ⟨l.drop n, List.take_append_drop n l⟩

theorem filter_pref {β : Type} (p : β → Bool) {l₁ l₂ : List β} (h : l₁ <+: l₂) :
    l₁.filter p <+: l₂.filter p := by
  obtain ⟨t, rfl⟩ := h
  exact ⟨t.filter p, (List.filter_append l₁ t).symm⟩

theorem nsmallest_pairwise (n : Nat) (l : List (NRow α × α)) :
    List.Pairwise diffLE (nsmallest n l) :=
  List.Pairwise.sublist (List.take_sublist n _) (List.sorted_insertionSort diffLE l)

theorem nsmallest_filter_pref (n : Nat) (l : List (NRow α × α)) (p : NRow α × α → Bool)
    (hp : ∀ a b, p a = true → p b = true → diffLE a b) :
    (nsmallest n l).filter p <+: l.filter p := by
  have h1 : (l.filter p).Pairwise diffLE :=
    List.pairwise_of_forall_mem_list
      (fun a ha b hb => hp a b (List.of_mem_filter ha) (List.of_mem_filter hb))
  have h2 : (l.filter p).Sublist (l.insertionSort diffLE) :=
    List.sublist_insertionSort h1 (List.filter_sublist l)
  have h3 : (l.filter p).Sublist ((l.insertionSort diffLE).filter p) := by
    have h4 := h2.filter p
    simp only [List.filter_filter, Bool.and_self] at h4
    exact h4
  have h5 : ((l.insertionSort diffLE).filter p).Perm (l.filter p) :=
    (l.perm_insertionSort diffLE).filter p
  have h6 : (l.insertionSort diffLE).filter p = l.filter p :=
    (h3.eq_of_length h5.length_eq.symm).symm
  have h7 : (nsmallest n l).filter p <+: (l.insertionSort diffLE).filter p :=
    filter_pref p (take_pref n _)
  rwa [h6] at h7

theorem mem_of_mem_nsmallest {n : Nat} {l : List (NRow α × α)} {x : NRow α × α}
    (hx : x ∈ nsmallest n l) : x ∈ l :=
  (l.perm_insertionSort diffLE).subset ((List.take_sublist n _).subset hx)

theorem length_nsmallest (n : Nat) (l : List (NRow α × α)) :
    (nsmallest n l).length = min n l.length := by
  unfold nsmallest
  rw [List.length_take, List.length_insertionSort]

theorem nsmallest_perm_of_le {n : Nat} {l : List (NRow α × α)} (h : l.length ≤ n) :
    (nsmallest n l).Perm l := by
  unfold nsmallest
  rw [List.take_of_length_le (by rwa [List.length_insertionSort])]
  exact l.perm_insertionSort diffLE

omit [LinearOrderedField α] in
theorem mem_filtered_others {final_df : List (NRow α)} {target_player : String} {spo : Bool}
    {t0 r : NRow α} (hr : r ∈ filtered_others final_df target_player spo t0) :
    r ∈ final_df ∧ r.player ≠ target_player ∧ (spo = true → r.pos = t0.pos) := by
  unfold filtered_others at hr
  cases spo with
  | false =>
    simp only [Bool.false_eq_true, if_false, List.mem_filter, bne_iff_ne] at hr
    exact ⟨hr.1, hr.2, by simp⟩
  | true =>
    simp only [if_true, List.mem_filter, bne_iff_ne, beq_iff_eq] at hr
    exact ⟨hr.1.1, hr.1.2, fun _ => hr.2⟩

theorem mem_find_similar {final_df : List (NRow α)} {target_player : String} {k : Nat}
    {spo : Bool} {q : NRow α × α}
    (hq : q ∈ find_similar_players final_df target_player k spo) :
    ∃ t0 rest, target_rows final_df target_player = t0 :: rest ∧
      q.1 ∈ filtered_others final_df target_player spo t0 ∧
      q.2 = |q.1.careerScore - t0.careerScore| := by
  unfold find_similar_players at hq
  cases htr : target_rows final_df target_player with
  | nil => rw [htr] at hq; simp at hq
  | cons t0 rest =>
    rw [htr] at hq
    obtain ⟨r, hr, hrq⟩ := List.mem_map.mp (mem_of_mem_nsmallest hq)
    exact ⟨t0, rest, rfl, by rw [← hrq]; exact hr, by rw [← hrq]⟩

/-!  Helper lemmas about the normalization pipeline. -/

theorem length_fillna (c : List (Option ℝ)) : (fillna c).length = c.length := by
  unfold fillna
  split <;> simp

theorem length_scaleCol (c : List (Option ℝ)) : (scaleCol c).length = c.length := by
  simp [scaleCol]

theorem length_normCol (c : List (Option ℝ)) : (normCol c).length = c.length := by
  simp [normCol, length_scaleCol, length_fillna]

theorem filterMap_id_replicate_some (n : Nat) (v : ℝ) :
    (List.replicate n (some v)).filterMap id = List.replicate n v := by
  simp [List.filterMap_replicate]

theorem filterMap_id_replicate_none (n : Nat) :
    (List.replicate n (none : Option ℝ)).filterMap id = [] := by
  simp [List.filterMap_replicate]

theorem colMean_replicate_some (m : Nat) (v : ℝ) :
    colMean (List.replicate (m + 1) (some v)) = v := by
  unfold colMean
  rw [filterMap_id_replicate_some]
  rw [List.sum_replicate, List.length_replicate, nsmul_eq_mul]
  have hm : ((m : ℝ) + 1) ≠ 0 := by positivity
  field_simp

theorem normCol_replicate_const (n : Nat) (v : ℝ) :
    normCol (List.replicate n (some v)) = List.replicate n (some 0) := by
  cases n with
  | zero => simp [normCol, fillna, scaleCol]
  | succ m =>
    have hfill : fillna (List.replicate (m + 1) (some v)) =
        List.replicate (m + 1) (some v) := by
      unfold fillna
      rw [filterMap_id_replicate_some]
      simp [colMean_replicate_some]
    have hvar : colVar (List.replicate (m + 1) (some v)) = 0 := by
      unfold colVar
      rw [filterMap_id_replicate_some, colMean_replicate_some, List.map_replicate]
      simp
    have hscale : colScale (List.replicate (m + 1) (some v)) = 1 := by
      unfold colScale
      rw [hvar, Real.sqrt_zero]
      simp
    unfold normCol
    rw [hfill]
    unfold scaleCol
    rw [hscale, colMean_replicate_some, List.map_replicate]
    simp

theorem normCol_all_missing (n : Nat) :
    normCol (List.replicate n (none : Option ℝ)) = List.replicate n none := by
  unfold normCol fillna
  rw [filterMap_id_replicate_none]
  simp [scaleCol, List.map_replicate]

theorem getD_replicate_getD_zero {n i : Nat} {v : ℝ} (hv : v = 0) :
    (((List.replicate n (some v)).getD i none).getD 0 : ℝ) = 0 := by
  rcases lt_or_ge i n with hi | hi
  · rw [List.getD_eq_getElem?_getD, List.getElem?_replicate]
    simp [hi, hv]
  · rw [List.getD_eq_getElem?_getD, List.getElem?_replicate]
    simp [Nat.not_lt_of_ge hi]

theorem getD_replicate_none_getD_zero {n i : Nat} :
    (((List.replicate n (none : Option ℝ)).getD i none).getD 0 : ℝ) = 0 := by
  rcases lt_or_ge i n with hi | hi
  · rw [List.getD_eq_getElem?_getD, List.getElem?_replicate]
    simp [hi]
  · rw [List.getD_eq_getElem?_getD, List.getElem?_replicate]
    simp [Nat.not_lt_of_ge hi]

theorem rowScore_middle (A B : List (List (Option ℝ))) (c : List (Option ℝ))
    (h0 : ∀ i, ((c.getD i none).getD 0 : ℝ) = 0) (i : Nat) :
    rowScore (A ++ c :: B) i = rowScore (A ++ B) i := by
  unfold rowScore
  rw [List.map_append, List.map_cons, List.sum_append, List.sum_cons, h0 i,
    List.map_append, List.sum_append]
  ring

/-!  Claim theorems for the normalization pipeline. -/

/-- C2: for every wellformed raw table whose `pos` column is present, the
load step keeps `player` and `pos` unchanged, keeps the numeric column names
in order, gives every normalized column and the `Career Score` column
exactly one entry per input row (same count, same order), and makes each
row's `Career Score` the row-wise sum of that row's normalized numeric
values. -/
theorem load_preserves_rows (t : RawTable) (ps : List String)
    (wf : t.WF) (hpos : t.pos = some ps) :
    (load_and_process_data t).player = t.player ∧
    (load_and_process_data t).pos = ps ∧
    (load_and_process_data t).stats.map Prod.fst = t.stats.map Prod.fst ∧
    (∀ c ∈ (load_and_process_data t).stats, c.2.length = t.player.length) ∧
    (load_and_process_data t).careerScore.length = t.player.length ∧
    ∀ i < t.player.length,
      (load_and_process_data t).careerScore.getD i 0 =
        rowScore ((load_and_process_data t).stats.map Prod.snd) i := by
  refine ⟨rfl, by simp [load_and_process_data, hpos], ?_, ?_, ?_, ?_⟩
  · simp [load_and_process_data]
  · intro c hc
    simp only [load_and_process_data, List.mem_map] at hc
    obtain ⟨nc, hnc, rfl⟩ := hc
    simpa [length_normCol] using wf.2 nc hnc
  · simp [load_and_process_data]
  · intro i hi
    show ((List.range t.player.length).map _).getD i 0 = _
    rw [List.getD_eq_getElem?_getD, List.getElem?_map, List.getElem?_range hi]
    rfl

theorem load_preserves_rows_witness :
    (load_and_process_data rawW).player = rawW.player ∧
    (load_and_process_data rawW).pos = ["G", "F"] ∧
    (load_and_process_data rawW).stats.map Prod.fst = rawW.stats.map Prod.fst ∧
    (load_and_process_data rawW).careerScore.length = rawW.player.length ∧
    (load_and_process_data rawW).careerScore.getD 0 0 =
      rowScore ((load_and_process_data rawW).stats.map Prod.snd) 0 := by
  have h := load_preserves_rows rawW ["G", "F"] (by constructor <;> simp [rawW]) rfl
  exact ⟨h.1, h.2.1, h.2.2.1, h.2.2.2.2.1, h.2.2.2.2.2 0 (by simp [rawW])⟩

/-- C3: a numeric column whose values are all equal (population standard
deviation zero) is normalized to exactly `0` in every row — a defined value,
never a missing one — and removing such a column leaves every row's
`Career Score` unchanged, i.e. the column contributes exactly `0` to each
row's score. -/
theorem load_constant_column (t : RawTable) (pre post : List (String × List (Option ℝ)))
    (name : String) (v : ℝ)
    (h : t.stats = pre ++ (name, List.replicate t.player.length (some v)) :: post) :
    (load_and_process_data t).stats =
      pre.map (fun nc => (nc.1, normCol nc.2)) ++
        (name, List.replicate t.player.length (some 0)) ::
          post.map (fun nc => (nc.1, normCol nc.2)) ∧
    (load_and_process_data t).careerScore =
      (load_and_process_data { t with stats := pre ++ post }).careerScore := by
  constructor
  · simp only [load_and_process_data, h, List.map_append, List.map_cons,
      normCol_replicate_const]
  · simp only [load_and_process_data, h, List.map_append, List.map_cons,
      normCol_replicate_const, List.map_map]
    apply List.map_congr_left
    intro i _
    exact rowScore_middle _ _ _ (fun j => getD_replicate_getD_zero rfl) i

theorem load_constant_column_witness :
    (load_and_process_data constT).stats =
      ([] : List (String × List (Option ℝ))).map (fun nc => (nc.1, normCol nc.2)) ++
        ("z", List.replicate constT.player.length (some 0)) ::
          ([] : List (String × List (Option ℝ))).map (fun nc => (nc.1, normCol nc.2)) ∧
    (load_and_process_data constT).careerScore =
      (load_and_process_data { constT with stats := [] ++ [] }).careerScore :=
  load_constant_column constT [] [] "z" 5 rfl

/-- C4, counterexample: on a table whose only numeric column is entirely
missing, the load step leaves that column entirely missing in the normalized
output — it is not replaced by zeros, so an undefined value does reach the
normalized output, contrary to the claim. -/
theorem load_missing_values_cex :
    (load_and_process_data missT).stats = [("x", [none])] ∧
    (("x", [(none : Option ℝ)]) : String × List (Option ℝ)) ≠ ("x", [some 0]) := by
  constructor
  · have h1 : normCol [(none : Option ℝ)] = [none] := by
      simpa using normCol_all_missing 1
    simp [load_and_process_data, missT, h1]
  · simp

/-- C4, amended: every missing value of a column that has at least one
non-missing value is imputed with that column's mean over its non-missing
values; a column whose values are all missing is left entirely missing by
imputation and by normalization, but its missing cells are skipped by the
row-wise `Career Score` sum — removing the column changes no row's score —
so no undefined value reaches `careerScore`. -/
theorem load_missing_values (t : RawTable) (pre post : List (String × List (Option ℝ)))
    (name : String)
    (h : t.stats = pre ++ (name, List.replicate t.player.length none) :: post) :
    (∀ c : List (Option ℝ), (c.filterMap id).isEmpty = false →
      fillna c = c.map (fun x => some (x.getD (colMean c)))) ∧
    (load_and_process_data t).stats[pre.length]? =
      some (name, List.replicate t.player.length none) ∧
    (load_and_process_data t).careerScore =
      (load_and_process_data { t with stats := pre ++ post }).careerScore := by
  refine ⟨?_, ?_, ?_⟩
  · intro c hc
    simp [fillna, hc]
  · simp only [load_and_process_data, h, List.map_append, List.map_cons,
      normCol_all_missing]
    rw [List.getElem?_append_right (by simp)]
    simp
  · simp only [load_and_process_data, h, List.map_append, List.map_cons,
      normCol_all_missing, List.map_map]
    apply List.map_congr_left
    intro i _
    exact rowScore_middle _ _ _ (fun _ => getD_replicate_none_getD_zero) i

theorem load_missing_values_witness :
    fillna [some (1 : ℝ), none] =
      [some (1 : ℝ), none].map (fun x => some (x.getD (colMean [some (1 : ℝ), none]))) ∧
    (load_and_process_data missT).stats[0]? =
      some ("x", List.replicate missT.player.length none) ∧
    (load_and_process_data missT).careerScore =
      (load_and_process_data { missT with stats := [] ++ [] }).careerScore := by
  have h := load_missing_values missT [] [] "x" rfl
  exact ⟨h.1 [some 1, none] (by simp), h.2.1, h.2.2⟩

/-!  Permutation invariance of the load step (C9). -/

theorem range_map_getD {β : Type} (l : List β) (d : β) :
    (List.range l.length).map (fun i => l.getD i d) = l := by
  apply List.ext_get (by simp)
  intro n h1 h2
  simp only [List.get_eq_getElem, List.getElem_map, List.getElem_range]
  exact List.getD_eq_getElem l d h2

theorem permuteList_perm {idx : List Nat} {β : Type} {l : List β} (d : β)
    (hp : idx.Perm (List.range l.length)) : (permuteList idx l d).Perm l := by
  have h := hp.map (fun i => l.getD i d)
  rwa [range_map_getD] at h

theorem permuteList_map {idx : List Nat} {β γ : Type} {l : List β}
    (hin : ∀ i ∈ idx, i < l.length) (f : β → γ) (d : β) (e : γ) :
    (permuteList idx l d).map f = permuteList idx (l.map f) e := by
  unfold permuteList
  rw [List.map_map]
  apply List.map_congr_left
  intro i hi
  have hilt := hin i hi
  simp only [Function.comp]
  rw [List.getD_eq_getElem l d hilt, List.getD_eq_getElem (l.map f) e (by simpa using hilt),
    List.getElem_map]

theorem colStats_congr {c₂ c : List (Option ℝ)} (hp : c₂.Perm c) :
    colMean c₂ = colMean c ∧ colVar c₂ = colVar c ∧ colScale c₂ = colScale c ∧
      (c₂.filterMap id).isEmpty = (c.filterMap id).isEmpty := by
  have hfm : (c₂.filterMap id).Perm (c.filterMap id) := hp.filterMap id
  have hsum := hfm.sum_eq
  have hlen := hfm.length_eq
  have hmean : colMean c₂ = colMean c := by
    unfold colMean
    rw [hsum, hlen]
  have hvar : colVar c₂ = colVar c := by
    unfold colVar
    rw [hmean, (hfm.map _).sum_eq, hlen]
  refine ⟨hmean, hvar, by unfold colScale; rw [hvar], ?_⟩
  cases hE : c.filterMap id with
  | nil =>
    rw [hE] at hfm
    rw [hfm.eq_nil]
  | cons a as =>
    cases hE2 : c₂.filterMap id with
    | nil =>
      rw [hE2, hE] at hlen
      simp at hlen
    | cons b bs => rfl

theorem scaleCol_permute {idx : List Nat} {c : List (Option ℝ)} (d : Option ℝ)
    (hin : ∀ i ∈ idx, i < c.length) (hp : idx.Perm (List.range c.length)) :
    scaleCol (permuteList idx c d) = permuteList idx (scaleCol c) none := by
  obtain ⟨hmean, -, hscale, -⟩ := colStats_congr (permuteList_perm d hp)
  unfold scaleCol
  rw [hmean, hscale]
  exact permuteList_map hin _ d none

theorem fillna_permute {idx : List Nat} {c : List (Option ℝ)}
    (hin : ∀ i ∈ idx, i < c.length) (hp : idx.Perm (List.range c.length)) :
    fillna (permuteList idx c none) = permuteList idx (fillna c) none := by
  obtain ⟨hmean, -, -, hempty⟩ := colStats_congr (permuteList_perm none hp)
  unfold fillna
  rw [hempty, hmean]
  cases hE : (c.filterMap id).isEmpty with
  | true => simp only [if_true]
  | false =>
    simp only [Bool.false_eq_true, if_false]
    exact permuteList_map hin _ none none

theorem normCol_permute {idx : List Nat} {c : List (Option ℝ)}
    (hin : ∀ i ∈ idx, i < c.length) (hp : idx.Perm (List.range c.length)) :
    normCol (permuteList idx c none) = permuteList idx (normCol c) none := by
  unfold normCol
  rw [fillna_permute hin hp]
  have hlen : (fillna c).length = c.length := length_fillna c
  exact scaleCol_permute none (fun i hi => by rw [hlen]; exact hin i hi)
    (by rw [hlen]; exact hp)

theorem rowScore_permute (idx : List Nat) (cols : List (List (Option ℝ))) {j : Nat}
    (hj : j < idx.length) :
    rowScore (cols.map (fun c => permuteList idx c none)) j =
      rowScore cols (idx.getD j 0) := by
  unfold rowScore
  rw [List.map_map]
  apply congrArg List.sum
  apply List.map_congr_left
  intro c _
  simp only [Function.comp]
  have h1 : (permuteList idx c none).getD j none = c.getD (idx.getD j 0) none := by
    unfold permuteList
    rw [List.getD_eq_getElem _ _ (by simpa using hj), List.getElem_map,
      List.getD_eq_getElem idx 0 hj]
  rw [h1]

theorem map_range_getD {β : Type} (idx : List Nat) (f : Nat → β) :
    (List.range idx.length).map (fun j => f (idx.getD j 0)) = idx.map f := by
  apply List.ext_get (by simp)
  intro j h1 h2
  simp only [List.get_eq_getElem, List.getElem_map, List.getElem_range]
  rw [List.getD_eq_getElem idx 0 (by simpa using h2)]

theorem zip_eq_range_map {β γ : Type} (l : List β) (d : β) (f : Nat → γ) :
    l.zip ((List.range l.length).map f) =
      (List.range l.length).map (fun i => (l.getD i d, f i)) := by
  apply List.ext_get (by simp [List.length_zip])
  intro i h1 h2
  have hil : i < l.length := by simpa using h2
  simp only [List.get_eq_getElem, List.getElem_zip, List.getElem_map, List.getElem_range]
  rw [List.getD_eq_getElem l d hil]

/-- C9: permuting the rows of the raw input table permutes the
(player, careerScore) pairs of the load step's output accordingly: each
player's `Career Score` is unchanged, because the normalization statistics
and the per-row sum are order-independent. -/
theorem load_permutation_invariant (t : RawTable) (idx : List Nat) (wf : t.WF)
    (hp : idx.Perm (List.range t.player.length)) :
    ((load_and_process_data (permuteTable idx t)).player.zip
        (load_and_process_data (permuteTable idx t)).careerScore).Perm
      ((load_and_process_data t).player.zip
        (load_and_process_data t).careerScore) := by
  have hin : ∀ i ∈ idx, i < t.player.length := by
    intro i hi
    have h := hp.subset hi
    simpa using h
  have hcols : (load_and_process_data (permuteTable idx t)).stats.map Prod.snd =
      ((load_and_process_data t).stats.map Prod.snd).map
        (fun c => permuteList idx c none) := by
    simp only [load_and_process_data, permuteTable, List.map_map]
    apply List.map_congr_left
    intro nc hnc
    simp only [Function.comp]
    exact normCol_permute (fun i hi => by rw [wf.2 nc hnc]; exact hin i hi)
      (by rw [wf.2 nc hnc]; exact hp)
  have hplen : (permuteTable idx t).player.length = idx.length := by
    simp [permuteTable, permuteList]
  have hscoreP : (load_and_process_data (permuteTable idx t)).careerScore =
      idx.map (fun i => rowScore ((load_and_process_data t).stats.map Prod.snd) i) :=
    calc (load_and_process_data (permuteTable idx t)).careerScore
        = (List.range (permuteTable idx t).player.length).map
            (rowScore ((load_and_process_data (permuteTable idx t)).stats.map Prod.snd)) :=
          rfl
      _ = (List.range idx.length).map
            (rowScore (((load_and_process_data t).stats.map Prod.snd).map
              (fun c => permuteList idx c none))) := by rw [hcols, hplen]
      _ = (List.range idx.length).map
            (fun j => rowScore ((load_and_process_data t).stats.map Prod.snd)
              (idx.getD j 0)) := by
          apply List.map_congr_left
          intro j hj
          exact rowScore_permute idx _ (by simpa using hj)
      _ = idx.map (fun i => rowScore ((load_and_process_data t).stats.map Prod.snd) i) :=
          map_range_getD idx _
  have hzipP : (load_and_process_data (permuteTable idx t)).player.zip
      (load_and_process_data (permuteTable idx t)).careerScore =
      idx.map (fun i => (t.player.getD i "",
        rowScore ((load_and_process_data t).stats.map Prod.snd) i)) := by
    rw [hscoreP]
    exact List.zip_map' (fun i => t.player.getD i "") _ idx
  have hzipT : (load_and_process_data t).player.zip
      (load_and_process_data t).careerScore =
      (List.range t.player.length).map (fun i => (t.player.getD i "",
        rowScore ((load_and_process_data t).stats.map Prod.snd) i)) := by
    exact zip_eq_range_map t.player "" _
  rw [hzipP, hzipT]
  exact hp.map _

theorem load_permutation_invariant_witness :
    ((load_and_process_data (permuteTable [1, 0] permT)).player.zip
        (load_and_process_data (permuteTable [1, 0] permT)).careerScore).Perm
      ((load_and_process_data permT).player.zip
        (load_and_process_data permT).careerScore) :=
  load_permutation_invariant permT [1, 0] (by constructor <;> simp [permT]) (by decide)

/-!  Claim theorems for the similarity engine. -/

/-- C1: for every normalized table in which the target player occurs (with
first matching row `t0`), the list returned by `find_similar_players` is
ordered by non-decreasing `score_difference`, and the rows of any fixed
`score_difference` value appear in their original candidate order — they
form a prefix of the equally-scored candidates listed in table order
(stable tie-breaking). -/
theorem findSimilar_sorted_stable (final_df : List (NRow α)) (target_player : String)
    (k : Nat) (spo : Bool) (t0 : NRow α) (rest : List (NRow α))
    (h : target_rows final_df target_player = t0 :: rest) :
    List.Pairwise diffLE (find_similar_players final_df target_player k spo) ∧
    ∀ v : α,
      (find_similar_players final_df target_player k spo).filter
          (fun q => decide (q.2 = v)) <+:
        (candidates_with_diff final_df target_player spo t0).filter
          (fun q => decide (q.2 = v)) := by
  rw [find_similar_eq_of_target final_df target_player k spo t0 rest h]
  refine ⟨nsmallest_pairwise k _, fun v => nsmallest_filter_pref k _ _ ?_⟩
  intro a b ha hb
  exact le_of_eq ((of_decide_eq_true ha).trans (of_decide_eq_true hb).symm)

theorem findSimilar_sorted_stable_witness :
    List.Pairwise diffLE (find_similar_players exampleDF "A" 2 false) ∧
    (find_similar_players exampleDF "A" 2 false).filter
        (fun q => decide (q.2 = (1 : ℚ))) <+:
      (candidates_with_diff exampleDF "A" false ⟨"A", "G", 10⟩).filter
        (fun q => decide (q.2 = (1 : ℚ))) :=
  ⟨(findSimilar_sorted_stable exampleDF "A" 2 false ⟨"A", "G", 10⟩ [] (by decide)).1,
   (findSimilar_sorted_stable exampleDF "A" 2 false ⟨"A", "G", 10⟩ [] (by decide)).2 1⟩

/-- C5: for every normalized table, target player, result count and filter
flag, no row returned by `find_similar_players` carries the target player's
name: the target's own row is never among the results. -/
theorem findSimilar_excludes_target (final_df : List (NRow α)) (target_player : String)
    (k : Nat) (spo : Bool) :
    ∀ q ∈ find_similar_players final_df target_player k spo,
      q.1.player ≠ target_player := by
  intro q hq
  obtain ⟨t0, rest, -, hmem, -⟩ := mem_find_similar hq
  exact (mem_filtered_others hmem).2.1

theorem findSimilar_excludes_target_witness :
    ((⟨"B", "G", (9 : ℚ)⟩ : NRow ℚ), |(9 : ℚ) - 10|) ∈
        find_similar_players twoDF "A" 2 false ∧
    (⟨"B", "G", (9 : ℚ)⟩ : NRow ℚ).player ≠ "A" := by
  have hmem : ((⟨"B", "G", (9 : ℚ)⟩ : NRow ℚ), |(9 : ℚ) - 10|) ∈
      find_similar_players twoDF "A" 2 false := by
    show _ ∈ [((⟨"B", "G", (9 : ℚ)⟩ : NRow ℚ), |(9 : ℚ) - 10|)]
    exact List.mem_singleton_self _
  exact ⟨hmem, findSimilar_excludes_target twoDF "A" 2 false _ hmem⟩

/-- C6: with `same_position_only = true` and the target present (first
matching row `t0`), every row returned by `find_similar_players` has a
`pos` equal to the target's `pos`. -/
theorem findSimilar_same_position (final_df : List (NRow α)) (target_player : String)
    (k : Nat) (t0 : NRow α) (rest : List (NRow α))
    (h : target_rows final_df target_player = t0 :: rest) :
    ∀ q ∈ find_similar_players final_df target_player k true, q.1.pos = t0.pos := by
  intro q hq
  obtain ⟨t0', rest', h', hmem, -⟩ := mem_find_similar hq
  rw [h] at h'
  injection h' with h1 h2
  subst h1
  exact (mem_filtered_others hmem).2.2 rfl

theorem findSimilar_same_position_witness :
    target_rows twoDF "A" = ⟨"A", "G", 10⟩ :: [] ∧
    ((⟨"B", "G", (9 : ℚ)⟩ : NRow ℚ), |(9 : ℚ) - 10|) ∈
        find_similar_players twoDF "A" 2 true ∧
    (⟨"B", "G", (9 : ℚ)⟩ : NRow ℚ).pos = (⟨"A", "G", (10 : ℚ)⟩ : NRow ℚ).pos := by
  have hmem : ((⟨"B", "G", (9 : ℚ)⟩ : NRow ℚ), |(9 : ℚ) - 10|) ∈
      find_similar_players twoDF "A" 2 true := by
    show _ ∈ [((⟨"B", "G", (9 : ℚ)⟩ : NRow ℚ), |(9 : ℚ) - 10|)]
    exact List.mem_singleton_self _
  exact ⟨by decide,  hmem,
    findSimilar_same_position twoDF "A" 2 ⟨"A", "G", 10⟩ [] (by decide) _ hmem⟩

/-- C7: with the target present (first matching row `t0`), the result has
length `min k (number of candidates)` — hence at most `k` rows, and exactly
`k` whenever at least `k` candidates survive exclusion and filtering — and
when fewer than `k` candidates exist the result is exactly those candidates
(as a permutation; nothing is padded and no error is possible, the function
is total). -/
theorem findSimilar_count (final_df : List (NRow α)) (target_player : String)
    (k : Nat) (spo : Bool) (t0 : NRow α) (rest : List (NRow α))
    (h : target_rows final_df target_player = t0 :: rest) :
    (find_similar_players final_df target_player k spo).length =
      min k (candidates_with_diff final_df target_player spo t0).length ∧
    ((candidates_with_diff final_df target_player spo t0).length < k →
      (find_similar_players final_df target_player k spo).Perm
        (candidates_with_diff final_df target_player spo t0)) := by
  rw [find_similar_eq_of_target final_df target_player k spo t0 rest h]
  exact ⟨length_nsmallest k _, fun hlt => nsmallest_perm_of_le (le_of_lt hlt)⟩

theorem findSimilar_count_witness :
    (find_similar_players exampleDF "A" 5 false).length =
      min 5 (candidates_with_diff exampleDF "A" false ⟨"A", "G", 10⟩).length ∧
    ((candidates_with_diff exampleDF "A" false ⟨"A", "G", 10⟩).length < 5 →
      (find_similar_players exampleDF "A" 5 false).Perm
        (candidates_with_diff exampleDF "A" false ⟨"A", "G", 10⟩)) :=
  findSimilar_count exampleDF "A" 5 false ⟨"A", "G", 10⟩ [] (by decide)

/-- C8: a query whose target matches no `player` value returns the empty
list, and a query whose position filter leaves zero candidates returns the
empty list; both are ordinary values of the total function
`find_similar_players`, not errors. -/
theorem findSimilar_empty_results (final_df : List (NRow α)) (target_player : String)
    (k : Nat) (spo : Bool) :
    (target_rows final_df target_player = [] →
      find_similar_players final_df target_player k spo = []) ∧
    (∀ t0 rest, target_rows final_df target_player = t0 :: rest →
      filtered_others final_df target_player spo t0 = [] →
      find_similar_players final_df target_player k spo = []) := by
  constructor
  · intro h
    unfold find_similar_players
    rw [h]
  · intro t0 rest h hf
    rw [find_similar_eq_of_target final_df target_player k spo t0 rest h]
    unfold candidates_with_diff
    rw [hf]
    simp [nsmallest]

theorem findSimilar_empty_results_witness :
    find_similar_players oneDF "Z" 3 false = [] ∧
    find_similar_players oneDF "A" 3 true = [] :=
  ⟨(findSimilar_empty_results oneDF "Z" 3 false).1 (by decide),
   (findSimilar_empty_results oneDF "A" 3 true).2 ⟨"A", "G", 10⟩ [] (by decide) (by decide)⟩

/-- C10: when several rows share the target's `player` value (the list of
target rows has a nonempty tail), every row bearing that name is excluded
from the results, and the position used for filtering and the career score
used for the distance both come from the first matching row `t0` in table
order. -/
theorem findSimilar_duplicate_target (final_df : List (NRow α)) (target_player : String)
    (k : Nat) (spo : Bool) (t0 : NRow α) (rest : List (NRow α))
    (h : target_rows final_df target_player = t0 :: rest) (_hdup : rest ≠ []) :
    ∀ q ∈ find_similar_players final_df target_player k spo,
      q.1.player ≠ target_player ∧
      q.2 = |q.1.careerScore - t0.careerScore| ∧
      (spo = true → q.1.pos = t0.pos) := by
  intro q hq
  obtain ⟨t0', rest', h', hmem, hdiff⟩ := mem_find_similar hq
  rw [h] at h'
  injection h' with h1 h2
  subst h1
  exact ⟨(mem_filtered_others hmem).2.1, hdiff, (mem_filtered_others hmem).2.2⟩

theorem findSimilar_duplicate_target_witness :
    ((⟨"B", "G", (9 : ℚ)⟩ : NRow ℚ), |(9 : ℚ) - 10|) ∈
        find_similar_players dupDF "A" 2 false ∧
    ((⟨"B", "G", (9 : ℚ)⟩ : NRow ℚ).player ≠ "A" ∧
      |(9 : ℚ) - 10| = |(⟨"B", "G", (9 : ℚ)⟩ : NRow ℚ).careerScore -
        (⟨"A", "G", (10 : ℚ)⟩ : NRow ℚ).careerScore| ∧
      (false = true → (⟨"B", "G", (9 : ℚ)⟩ : NRow ℚ).pos = "G")) := by
  have hmem : ((⟨"B", "G", (9 : ℚ)⟩ : NRow ℚ), |(9 : ℚ) - 10|) ∈
      find_similar_players dupDF "A" 2 false := by
    show _ ∈ [((⟨"B", "G", (9 : ℚ)⟩ : NRow ℚ), |(9 : ℚ) - 10|)]
    exact List.mem_singleton_self _
  exact ⟨hmem, findSimilar_duplicate_target dupDF "A" 2 false ⟨"A", "G", 10⟩
    [⟨"A", "F", 7⟩] (by decide) (by decide) _ hmem⟩

end NBA
